import Mathlib

/-!
Shallow embedding of `applications/robustness.py` (CIFAR-10 training under an
epsilon-adversarial loss constraint) and proofs about it.

Modelling conventions:
* tensors of image batches are `List Image`, where an `Image` assigns to each
  of the 3 channels a matrix (list of rows) of rational pixel values;
* prediction matrices are `List (List ℚ)` (one row of logits per sample),
  label vectors are `List Nat`;
* mutable `torch` state visible in this file (the module's train/eval mode and
  the parameters' `.grad` fields) is threaded explicitly as a `TorchState`;
* external numeric routines (the ResNet forward pass, `F.cross_entropy`, the
  foolbox attack together with the gradient garbage it may leave in `.grad`)
  are parameters of the embedded functions;
* floating-point constants are read as the rationals they denote in the source
  text.
-/

namespace Robustness

/-- One image: per channel (3 channels), a matrix of pixel values. -/
def Image : Type := Fin 3 → List (List ℚ)

/-- A batch of images, as sliced out of a dataset. -/
def Batch : Type := List Image

/-- Train/eval mode of the pytorch module (`model.train()` / `model.eval()`). -/
inductive Mode
  | train
  | eval
deriving DecidableEq, Repr

/-- The torch state visible to this script: the module's mode and the list of
parameter gradients (`p.grad` for `p` in `model.parameters`; `none` models a
cleared gradient). -/
structure TorchState where
  mode : Mode
  grads : List (Option ℚ)
deriving DecidableEq, Repr

/-! ### `accuracy` (robustness.py lines 36-39) -/

/-- Helper for `argmaxRow`: running maximum value `bv` at index `bi`, next
index `i`.  Mirrors `torch.max(yhat, 1)`, which returns the first index
attaining the row maximum (strict `<` keeps the earlier index on ties). -/
def argmaxAux : List ℚ → ℚ → Nat → Nat → Nat
  | [], _, _, bi => bi
  | v :: vs, bv, i, bi => if bv < v then argmaxAux vs v (i + 1) i else argmaxAux vs bv (i + 1) bi

/-- Index of the (first) maximal entry of a row of logits, as produced by
`_, predicted = torch.max(yhat, 1)`. -/
def argmaxRow : List ℚ → Nat
  | [] => 0
  | v :: vs => argmaxAux vs v 1 0

/-- `accuracy(yhat, y)`: fraction of rows whose predicted class matches the
label; `correct = (predicted == y).sum()`, divided by `yhat.shape[0]`. -/
def accuracy (yhat : List (List ℚ)) (y : List Nat) : ℚ :=
  let predicted := yhat.map argmaxRow
  let correct := (predicted.zip y).countP (fun p => p.1 == p.2)
  (correct : ℚ) / (yhat.length : ℚ)

/-! ### `preprocess` (robustness.py lines 41-44) -/

/-- The per-channel normalization mean `(0.4914, 0.4822, 0.4465)`. -/
def mean : Fin 3 → ℚ := ![4914/10000, 4822/10000, 4465/10000]

/-- The per-channel normalization standard deviation `(0.2023, 0.1994, 0.2010)`. -/
def std : Fin 3 → ℚ := ![2023/10000, 1994/10000, 2010/10000]

/-- `preprocess(img)`: per-channel normalization `(img - mean) / std`,
broadcast over every pixel of each channel. -/
def preprocess (img : Image) : Image :=
  fun c => (img c).map (fun row => row.map (fun v => (v - mean c) / std c))

/-- `preprocess` applied to a whole batch (the broadcast over the batch
dimension of the tensor). -/
def preprocessBatch (x : Batch) : Batch := x.map preprocess

/-! ### The constrained learning problem `robustLoss` (robustness.py lines 80-139) -/

/-- Marker for the model stored in the problem (`csl.PytorchModel(ResNet18()...)`). -/
inductive ModelRef
  | resnet18
deriving DecidableEq, Repr

/-- Marker for the objective function stored in the problem (`self.obj_fun`). -/
inductive ObjectiveRef
  | obj_fun
deriving DecidableEq, Repr

/-- Marker for a constraint function stored in the problem
(`self.adversarialLoss`). -/
inductive ConstraintRef
  | adversarialLoss
deriving DecidableEq, Repr

/-- The data of a `robustLoss` problem as set up by `robustLoss.__init__`:
a model, the batch size, the objective, the list of constraint functions and
the list of right-hand sides. -/
structure RobustLossProblem where
  model : ModelRef
  batch_size : Nat
  obj_function : ObjectiveRef
  constraints : List ConstraintRef
  rhs : List ℚ
deriving DecidableEq, Repr

/-- `robustLoss.__init__(rhs)`: stores the ResNet18 model, batch size 256, the
`obj_fun` objective, the single constraint `adversarialLoss`, and `[rhs]`. -/
def robustLossInit (rhs : ℚ) : RobustLossProblem :=
  { model := ModelRef.resnet18
    batch_size := 256
    obj_function := ObjectiveRef.obj_fun
    constraints := [ConstraintRef.adversarialLoss]
    rhs := [rhs] }

/-- `problem = robustLoss(rhs=0.7)` (robustness.py line 180). -/
def problem : RobustLossProblem := robustLossInit (7/10)

/-- Result of the embedded `obj_fun`: the returned loss value together with
the list of inputs on which the model's forward pass was invoked. -/
structure ObjResult where
  value : ℚ
  modelInputs : List Batch

/-- `robustLoss.obj_fun(batch_idx)` (lines 102-107): runs the model on the
preprocessed batch and returns `0.1 * cross_entropy(yhat, y)`.  The network
forward pass `model` and `F.cross_entropy` are parameters. -/
def obj_fun (model : Batch → List (List ℚ)) (cross_entropy : List (List ℚ) → List Nat → ℚ)
    (x : Batch) (y : List Nat) : ObjResult :=
  let yhat := model (preprocessBatch x)
  { value := (1/10) * cross_entropy yhat y
    modelInputs := [preprocessBatch x] }

/-- Events observable during `adversarialLoss`: the attack invocation, and a
forward pass of the model with the grad-tracking flag and the module mode in
force at that moment. -/
inductive Ev
  | attackCall
  | forward (tracked : Bool) (mode : Mode)
deriving DecidableEq, Repr

/-- Result of the embedded `adversarialLoss`: the returned loss, the ordered
event trace, the model inputs of its forward passes, and the torch state
after the call. -/
structure AdvLossResult where
  loss : ℚ
  trace : List Ev
  modelInputs : List Batch
  finalState : TorchState

/-- `robustLoss.adversarialLoss(batch_idx, primal)` (lines 109-135).

Line by line: `self.model.eval()`; `saved_grad = [copy.deepcopy(p.grad) ...]`;
the attack is run on the raw batch `x` (it may overwrite the parameter
gradients, modelled by `attackGrads`); the saved gradients are written back
(`p.grad = g`); then in primal mode the model is put in train mode and run on
the preprocessed adversarial batch with gradient tracking, while in dual mode
the forward pass happens inside `torch.no_grad()` with the module still in
eval mode, and only afterwards is the module put back in train mode.
`attack` models `self.attack(self.foolbox_model, x, y, epsilons=eps)` and
`cross_entropy` models `F.cross_entropy`. -/
def adversarialLoss (model : Batch → List (List ℚ))
    (cross_entropy : List (List ℚ) → List Nat → ℚ)
    (attack : Batch → Batch) (attackGrads : List (Option ℚ))
    (st : TorchState) (x : Batch) (y : List Nat) (primal : Bool) : AdvLossResult :=
  -- self.model.eval()
  let st1 : TorchState := { st with mode := Mode.eval }
  -- saved_grad = [copy.deepcopy(p.grad) for p in self.model.parameters]
  let saved_grad := st1.grads
  -- x_processed, _, _ = self.attack(...); the attack's internal backward
  -- passes may leave arbitrary values in the parameters' .grad fields
  let x_processed := attack x
  let st2 : TorchState := { st1 with grads := attackGrads }
  -- for p, g in zip(self.model.parameters, saved_grad): p.grad = g
  let st3 : TorchState := { st2 with grads := saved_grad }
  if primal then
    -- self.model.train(); yhat = self.model(preprocess(x_processed))
    let st4 : TorchState := { st3 with mode := Mode.train }
    let yhat := model (preprocessBatch x_processed)
    { loss := cross_entropy yhat y
      trace := [Ev.attackCall, Ev.forward true Mode.train]
      modelInputs := [preprocessBatch x_processed]
      finalState := st4 }
  else
    -- with torch.no_grad(): yhat = ...; then self.model.train()
    let yhat := model (preprocessBatch x_processed)
    let st4 : TorchState := { st3 with mode := Mode.train }
    { loss := cross_entropy yhat y
      trace := [Ev.attackCall, Ev.forward false Mode.eval]
      modelInputs := [preprocessBatch x_processed]
      finalState := st4 }

/-! ### Label-stratified subset selection (robustness.py lines 50-71) -/

/-- `n_train = 4900`. -/
def n_train : Nat := 4900

/-- `n_valid = 100`. -/
def n_valid : Nat := 100

/-- `np.flatnonzero(target == label)`: the indices of the entries of `target`
equal to `label`, in increasing order. -/
def flatnonzero (target : List Nat) (label : Nat) : List Nat :=
  (List.range target.length).filter (fun i => target.getD i 0 == label)

/-- Model of a pseudorandom-number-generator step: a linear congruential
generator stands in for numpy's MT19937 (which is external library code); the
proofs use only that the stream is a deterministic function of the seed. -/
def lcg (s : Nat) : Nat := (s * 1664525 + 1013904223) % 4294967296

/-- Remove the element at position `k` from a list, returning it together with
the remainder; `none` when `k` is out of range. -/
def extractAt {α : Type} : Nat → List α → Option (α × List α)
  | _, [] => none
  | 0, x :: xs => some (x, xs)
  | k + 1, x :: xs => (extractAt k xs).map (fun p => (p.1, x :: p.2))

/-- Fisher-Yates shuffle driven by `lcg`, with fuel equal to the list length:
repeatedly extract a pseudorandomly chosen element. -/
def shuffleGo {α : Type} (rng : Nat) : Nat → List α → List α
  | 0, _ => []
  | fuel + 1, xs =>
    match extractAt (rng % xs.length) xs with
    | none => []
    | some p => p.1 :: shuffleGo (lcg rng) fuel p.2

/-- Model of `np.random.RandomState(seed=seed).permutation(xs)`: a
deterministic pseudorandom rearrangement of `xs`.  The MT19937 generator of
numpy is modelled by `lcg`; everything proved below depends only on the
result being a deterministic permutation of the input. -/
def permutation {α : Type} (seed : Nat) (xs : List α) : List α :=
  shuffleGo seed xs.length xs

/-- `label_idx` after line 56: for a class label, the seed-42 permutation of
the indices of that label in `target`. -/
def label_idx (target : List Nat) (label : Nat) : List Nat :=
  permutation 42 (flatnonzero target label)

/-- `train_subset` per class (line 57): the first `n_train` indices of the
permuted index list (`idx[:n_train]`). -/
def train_subset (target : List Nat) (label : Nat) : List Nat :=
  (label_idx target label).take n_train

/-- `valid_subset` per class (line 70): the next `n_valid` indices
(`idx[n_train:n_train+n_valid]`). -/
def valid_subset (target : List Nat) (label : Nat) : List Nat :=
  ((label_idx target label).drop n_train).take n_valid

/-! ### Batch boundaries (robustness.py lines 148-150 and 218-220) -/

/-- `np.arange(0, stop, step)` for positive `step`: the multiples of `step`
below `stop`, in increasing order (`ceil(stop/step)` many). -/
def arange0 (stop step : Nat) : List Nat :=
  (List.range ((stop + step - 1) / step)).map (· * step)

/-- The batch-boundary list of the validation hook and the test loop:
`batch_idx = np.arange(0, n+1, b)`, then `if batch_idx[-1] < n:
batch_idx = np.append(batch_idx, n)` where `n` is the dataset length and `b`
the batch size. -/
def batchIdx (n b : Nat) : List Nat :=
  if (arange0 (n + 1) b).getLastD 0 < n then arange0 (n + 1) b ++ [n]
  else arange0 (n + 1) b

/-- The half-open index intervals `[s, e)` spanned by the consecutive pairs of
a boundary list, as visited by `zip(batch_idx, batch_idx[1:])`. -/
def intervals (l : List Nat) : List (List Nat) :=
  (l.zip l.tail).map (fun p => List.range' p.1 (p.2 - p.1))

/-! ### The validation hook (robustness.py lines 144-178) -/

/-- Accumulator of the validation loop over batches: running clean and
adversarial accuracy, the number of adversarial-attack invocations so far,
and the inputs fed to the model's forward pass. -/
structure HookAcc where
  acc : ℚ
  acc_adv : ℚ
  attacks : Nat
  modelInputs : List Batch

/-- One iteration of the validation loop (lines 156-167), for boundary pair
`se = (batch_start, batch_end)`: slice the validation set, run the model on
the preprocessed batch and accumulate clean accuracy; when the countdown
variable `advE` (`_adv_epoch`) equals 1, additionally attack the batch, run
the model on the preprocessed adversarials and accumulate adversarial
accuracy. -/
def hookStep (model : Batch → List (List ℚ)) (attack : Batch → Batch)
    (xs : List Image) (ys : List Nat) (advE : Nat)
    (r : HookAcc) (se : Nat × Nat) : HookAcc :=
  let x := (xs.drop se.1).take (se.2 - se.1)
  let y := (ys.drop se.1).take (se.2 - se.1)
  let yhat := model (preprocessBatch x)
  let r1 : HookAcc :=
    { r with
      acc := r.acc + accuracy yhat y * ((se.2 - se.1 : Nat) : ℚ) / (xs.length : ℚ)
      modelInputs := r.modelInputs ++ [preprocessBatch x] }
  if advE == 1 then
    let adversarial := attack x
    let yhat_adv := model (preprocessBatch adversarial)
    { r1 with
      acc_adv := r1.acc_adv + accuracy yhat_adv y * ((se.2 - se.1 : Nat) : ℚ) / (xs.length : ℚ)
      attacks := r1.attacks + 1
      modelInputs := r1.modelInputs ++ [preprocessBatch adversarial] }
  else r1

/-- The validation loop of lines 156-167 as a fold of `hookStep` over the
consecutive boundary pairs, starting from zero accumulators. -/
def hookFold (model : Batch → List (List ℚ)) (attack : Batch → Batch)
    (xs : List Image) (ys : List Nat) (advE : Nat) (b : Nat) : HookAcc :=
  ((batchIdx xs.length b).zip (batchIdx xs.length b).tail).foldl
    (hookStep model attack xs ys advE)
    { acc := 0, acc_adv := 0, attacks := 0, modelInputs := [] }

/-- Observable outcome of one call of `validation_hook`. -/
structure HookResult where
  acc : ℚ
  acc_adv : ℚ
  attacks : Nat
  modelInputs : List Batch
  printedAdversarial : Bool
deriving Inhabited

/-- `validation_hook(problem, solver_state)` (lines 144-178).  `adv_epoch` is
set to 10 and `_adv_epoch` (here `advE`) is a fresh local initialised to it on
every call — the function keeps no state between calls.  The loop over the
batch boundaries accumulates accuracies; afterwards, if `_adv_epoch > 1` the
clean accuracy and the dual variables are printed (and the decrement of the
local is discarded on return), otherwise the adversarial accuracy is printed.
`xs, ys` are `validset`'s images and labels, `b` is `problem.batch_size`. -/
def validation_hook (model : Batch → List (List ℚ)) (attack : Batch → Batch)
    (xs : List Image) (ys : List Nat) (b : Nat) : HookResult :=
  let adv_epoch := 10
  let advE := adv_epoch
  let st := hookFold model attack xs ys advE b
  if advE > 1 then
    { acc := st.acc, acc_adv := st.acc_adv, attacks := st.attacks
      modelInputs := st.modelInputs, printedAdversarial := false }
  else
    { acc := st.acc, acc_adv := st.acc_adv, attacks := st.attacks
      modelInputs := st.modelInputs, printedAdversarial := true }

/-! ### Test-time evaluation (robustness.py lines 202-250) -/

/-- `np.linspace(a, b, num)` with endpoint: `a + i*(b-a)/(num-1)`. -/
def linspace (a b : ℚ) (num : Nat) : List ℚ :=
  (List.range num).map (fun i => a + (i : ℚ) * ((b - a) / ((num : ℚ) - 1)))

/-- `epsilon_test = np.linspace(0.01, 0.06, 7)` (line 215). -/
def epsilon_test : List ℚ := linspace (1/100) (6/100) 7

/-- Accumulator of the test loop: total sample count, clean-accuracy sum,
per-epsilon adversarial-accuracy sums, per-epsilon attack-success sums, and
the inputs fed to the model's forward pass. -/
structure TestAcc where
  n_total : Nat
  acc_test : ℚ
  acc_adv : List ℚ
  success_adv : List ℚ
  modelInputs : List Batch

/-- One iteration of the test loop (lines 227-241): slice the test set, run
the model on the preprocessed batch (clean accuracy), run the attack at every
epsilon of the sweep (foolbox returns one adversarial batch and one success
mask per epsilon, modelled by `attackT` and `successCount`), and accumulate,
for each epsilon index, the adversarial accuracy and the number of attack
successes. -/
def testStep (model : Batch → List (List ℚ)) (attackT : ℚ → Batch → Batch)
    (successCount : ℚ → Batch → Nat) (xs : List Image) (ys : List Nat)
    (r : TestAcc) (se : Nat × Nat) : TestAcc :=
  let x := (xs.drop se.1).take (se.2 - se.1)
  let y := (ys.drop se.1).take (se.2 - se.1)
  let yhat := model (preprocessBatch x)
  let adversarials := epsilon_test.map (fun e => attackT e x)
  { n_total := r.n_total + (se.2 - se.1)
    acc_test := r.acc_test + accuracy yhat y * ((se.2 - se.1 : Nat) : ℚ)
    acc_adv := List.zipWith
      (fun a adv => a + accuracy (model (preprocessBatch adv)) y * ((se.2 - se.1 : Nat) : ℚ))
      r.acc_adv adversarials
    success_adv := List.zipWith (fun s e => s + (successCount e x : ℚ))
      r.success_adv epsilon_test
    modelInputs := r.modelInputs ++ preprocessBatch x :: adversarials.map preprocessBatch }

/-- The test loop of lines 227-241 as a fold of `testStep` over the
consecutive boundary pairs, starting from `acc_test = 0`, `n_total = 0`,
`acc_adv = np.zeros(epsilon_test.shape[0])` and
`success_adv = np.zeros_like(acc_adv)`. -/
def testFold (model : Batch → List (List ℚ)) (attackT : ℚ → Batch → Batch)
    (successCount : ℚ → Batch → Nat) (xs : List Image) (ys : List Nat)
    (b : Nat) : TestAcc :=
  ((batchIdx xs.length b).zip (batchIdx xs.length b).tail).foldl
    (testStep model attackT successCount xs ys)
    { n_total := 0, acc_test := 0
      acc_adv := List.replicate epsilon_test.length 0
      success_adv := List.replicate epsilon_test.length 0
      modelInputs := [] }

/-- The whole test-time evaluation (lines 218-245): loop over the batch
boundaries of the test set, then divide the three accumulators by
`n_total`. -/
def epsilonSweep (model : Batch → List (List ℚ)) (attackT : ℚ → Batch → Batch)
    (successCount : ℚ → Batch → Nat) (xs : List Image) (ys : List Nat)
    (b : Nat) : TestAcc :=
  let st := testFold model attackT successCount xs ys b
  { st with
    acc_test := st.acc_test / (st.n_total : ℚ)
    acc_adv := st.acc_adv.map (· / (st.n_total : ℚ))
    success_adv := st.success_adv.map (· / (st.n_total : ℚ)) }

/-! ### The script as a straight-line pipeline (robustness.py, whole module) -/

/-- The module's top-level control flow, as a composition of fallible stages:
load the datasets, construct the problem, train (solve), then test.  The
script contains no `try`/`except`, so the stages are composed by plain
sequencing: an error of any stage is the result of the whole run. -/
def scriptRun {E D P T : Type} (loadData : Except E D) (buildProblem : D → Except E P)
    (solve : P → Except E P) (evaluate : P → Except E T) : Except E T :=
  loadData.bind fun d => (buildProblem d).bind fun p => (solve p).bind evaluate

/-! ## Theorems -/

/-- C4: the constructed constrained learning problem bundles a model, a
primary data-fit objective, and exactly one inequality constraint (the
adversarial loss), paired with exactly one right-hand side, 0.7 in the
instantiation `problem = robustLoss(rhs=0.7)`. -/
theorem problem_single_constraint :
    problem.constraints.length = 1 ∧
    problem.rhs.length = 1 ∧
    problem.constraints = [ConstraintRef.adversarialLoss] ∧
    problem.rhs = [7/10] ∧
    problem.model = ModelRef.resnet18 ∧
    problem.obj_function = ObjectiveRef.obj_fun :=
  ⟨rfl, rfl, rfl, rfl, rfl, rfl⟩

/-- C3: `adversarialLoss` first runs the attack on the batch and then returns
the cross-entropy loss of the model on the perturbed (and preprocessed)
inputs; the forward pass computing the loss is gradient-tracked exactly when
`primal` is true, in train mode when `primal` is true and inside the
`torch.no_grad()` context (module still in eval mode) when `primal` is
false. -/
theorem adversarialLoss_attack_then_loss (model : Batch → List (List ℚ))
    (cross_entropy : List (List ℚ) → List Nat → ℚ) (attack : Batch → Batch)
    (attackGrads : List (Option ℚ)) (st : TorchState) (x : Batch) (y : List Nat)
    (primal : Bool) :
    (adversarialLoss model cross_entropy attack attackGrads st x y primal).loss
      = cross_entropy (model (preprocessBatch (attack x))) y ∧
    (adversarialLoss model cross_entropy attack attackGrads st x y primal).trace
      = [Ev.attackCall,
         Ev.forward primal (if primal then Mode.train else Mode.eval)] := by
  cases primal <;> exact ⟨rfl, rfl⟩

/-- C8: `adversarialLoss` deep-copies the parameter gradients before running
the attack and writes them back right after it, so whatever gradient garbage
the attack produces (`attackGrads`), the parameters' `.grad` fields after the
call equal their values before it. -/
theorem adversarialLoss_restores_grads (model : Batch → List (List ℚ))
    (cross_entropy : List (List ℚ) → List Nat → ℚ) (attack : Batch → Batch)
    (attackGrads : List (Option ℚ)) (st : TorchState) (x : Batch) (y : List Nat)
    (primal : Bool) :
    (adversarialLoss model cross_entropy attack attackGrads st x y primal).finalState.grads
      = st.grads := by
  cases primal <;> rfl

/-- Computation rule: sequencing after a successful stage runs the next
stage. -/
theorem except_bind_ok {E A B : Type} (a : A) (f : A → Except E B) :
    (Except.ok a : Except E A).bind f = f a := rfl

/-- Computation rule: sequencing after a failed stage propagates the error. -/
theorem except_bind_error {E A B : Type} (e : E) (f : A → Except E B) :
    (Except.error e : Except E A).bind f = Except.error e := rfl

/-- C7: the script installs no exception handler: composed as the straight
pipeline `scriptRun`, the first stage that fails determines the outcome of
the whole run, with its error propagated unchanged and no recovery code
executed. -/
theorem scriptRun_propagates {E D P T : Type} (loadData : Except E D)
    (buildProblem : D → Except E P) (solve : P → Except E P)
    (evaluate : P → Except E T) (e : E) :
    (loadData = Except.error e →
      scriptRun loadData buildProblem solve evaluate = Except.error e) ∧
    (∀ d, loadData = Except.ok d → buildProblem d = Except.error e →
      scriptRun loadData buildProblem solve evaluate = Except.error e) ∧
    (∀ d p, loadData = Except.ok d → buildProblem d = Except.ok p →
      solve p = Except.error e →
      scriptRun loadData buildProblem solve evaluate = Except.error e) ∧
    (∀ d p q, loadData = Except.ok d → buildProblem d = Except.ok p →
      solve p = Except.ok q → evaluate q = Except.error e →
      scriptRun loadData buildProblem solve evaluate = Except.error e) := by
  refine ⟨?_, ?_, ?_, ?_⟩
  · intro h
    unfold scriptRun
    rw [h, except_bind_error]
  · intro d h1 h2
    unfold scriptRun
    rw [h1, except_bind_ok, h2, except_bind_error]
  · intro d p h1 h2 h3
    unfold scriptRun
    rw [h1, except_bind_ok, h2, except_bind_ok, h3, except_bind_error]
  · intro d p q h1 h2 h3 h4
    unfold scriptRun
    rw [h1, except_bind_ok, h2, except_bind_ok, h3, except_bind_ok, h4]

/-- Witness for C7: each of the four stages, failing first with error code 5,
makes the whole (otherwise succeeding) pipeline return error 5. -/
theorem scriptRun_propagates_witness :
    @scriptRun Nat Unit Unit Unit (Except.error 5) (fun _ => Except.ok ())
      (fun _ => Except.ok ()) (fun _ => Except.ok ()) = Except.error 5 ∧
    @scriptRun Nat Unit Unit Unit (Except.ok ()) (fun _ => Except.error 5)
      (fun _ => Except.ok ()) (fun _ => Except.ok ()) = Except.error 5 ∧
    @scriptRun Nat Unit Unit Unit (Except.ok ()) (fun _ => Except.ok ())
      (fun _ => Except.error 5) (fun _ => Except.ok ()) = Except.error 5 ∧
    @scriptRun Nat Unit Unit Unit (Except.ok ()) (fun _ => Except.ok ())
      (fun _ => Except.ok ()) (fun _ => Except.error 5) = Except.error 5 :=
  ⟨(scriptRun_propagates _ _ _ _ 5).1 rfl,
   (scriptRun_propagates _ _ _ _ 5).2.1 () rfl rfl,
   (scriptRun_propagates _ _ _ _ 5).2.2.1 () () rfl rfl rfl,
   (scriptRun_propagates _ _ _ _ 5).2.2.2 () () () rfl rfl rfl rfl⟩

/-- In every iteration of the validation loop with the countdown variable at
its initial value 10, the adversarial branch is skipped, so the fold never
increments the attack counter. -/
theorem hookStep_foldl_attacks (model : Batch → List (List ℚ)) (attack : Batch → Batch)
    (xs : List Image) (ys : List Nat) :
    ∀ (l : List (Nat × Nat)) (r : HookAcc),
      (l.foldl (hookStep model attack xs ys 10) r).attacks = r.attacks := by
  intro l
  induction l with
  | nil => intro r; rfl
  | cons se t ih =>
    intro r
    rw [List.foldl_cons, ih]
    rfl

/-- C1 (refuted): `_adv_epoch` is a local variable re-initialised to 10 on
every call of `validation_hook`, so the guard `_adv_epoch == 1` of the
adversarial branch is never true and `_adv_epoch > 1` always is: no call ever
runs the attack or prints the adversarial accuracy, contrary to the intended
once-every-10-calls schedule. -/
theorem validation_hook_adv_branch_dead (model : Batch → List (List ℚ))
    (attack : Batch → Batch) (xs : List Image) (ys : List Nat) (b : Nat) :
    (validation_hook model attack xs ys b).attacks = 0 ∧
    (validation_hook model attack xs ys b).printedAdversarial = false := by
  constructor
  · have h : (validation_hook model attack xs ys b).attacks
        = (((batchIdx xs.length b).zip (batchIdx xs.length b).tail).foldl
            (hookStep model attack xs ys 10)
            { acc := 0, acc_adv := 0, attacks := 0, modelInputs := [] }).attacks := rfl
    rw [h, hookStep_foldl_attacks]
  · rfl

/-- The zipped-then-counted form of `accuracy`: mapping `argmaxRow` before
zipping with the labels counts the same pairs as zipping first. -/
theorem accuracy_eq_countP (yhat : List (List ℚ)) (y : List Nat) :
    accuracy yhat y
      = (((yhat.zip y).countP fun p => argmaxRow p.1 == p.2 : Nat) : ℚ)
          / (yhat.length : ℚ) := by
  show ((((yhat.map argmaxRow).zip y).countP fun p => p.1 == p.2 : Nat) : ℚ)
      / (yhat.length : ℚ) = _
  rw [List.zip_map_left, List.countP_map]
  rfl

/-- C9: for a non-empty prediction matrix and a matching label vector,
`accuracy` returns the number of rows whose argmax equals the label, divided
by the number of rows, and this value lies in the closed interval [0, 1]. -/
theorem accuracy_fraction (yhat : List (List ℚ)) (y : List Nat)
    (hne : yhat ≠ []) (hlen : y.length = yhat.length) :
    accuracy yhat y
      = (((yhat.zip y).countP fun p => argmaxRow p.1 == p.2 : Nat) : ℚ)
          / (yhat.length : ℚ) ∧
    0 ≤ accuracy yhat y ∧ accuracy yhat y ≤ 1 := by
  have hpos : 0 < (yhat.length : ℚ) := by
    have : 0 < yhat.length := List.length_pos.mpr hne
    exact_mod_cast this
  refine ⟨accuracy_eq_countP yhat y, ?_, ?_⟩
  · rw [accuracy_eq_countP]
    positivity
  · rw [accuracy_eq_countP]
    rw [div_le_one hpos]
    have hcount : ((yhat.zip y).countP fun p => argmaxRow p.1 == p.2) ≤ yhat.length := by
      calc ((yhat.zip y).countP fun p => argmaxRow p.1 == p.2)
          ≤ (yhat.zip y).length := List.countP_le_length _
        _ ≤ yhat.length := by rw [List.length_zip, hlen, Nat.min_self]
    exact_mod_cast hcount

/-- Witness for C9 at a concrete 2-sample batch: the second logit wins in
the first row (label 1, correct) and the first logit wins in the second row
(label 0, correct), so the accuracy is 1 and the bounds hold. -/
theorem accuracy_fraction_witness :
    ([[(0 : ℚ), 1], [2, 0]] ≠ ([] : List (List ℚ))) ∧
    ([1, 0] : List Nat).length = ([[(0 : ℚ), 1], [2, 0]] : List (List ℚ)).length ∧
    (0 ≤ accuracy [[(0 : ℚ), 1], [2, 0]] [1, 0] ∧
      accuracy [[(0 : ℚ), 1], [2, 0]] [1, 0] ≤ 1) :=
  ⟨by decide, by decide,
   (accuracy_fraction [[(0 : ℚ), 1], [2, 0]] [1, 0] (by decide) (by decide)).2⟩

/-- Extracting the element at an in-range position succeeds and rearranges
the list: the original is a permutation of the extracted element consed onto
the remainder, which is one element shorter. -/
theorem extractAt_spec {α : Type} :
    ∀ (l : List α) (k : Nat), k < l.length →
      ∃ y ys, extractAt k l = some (y, ys) ∧ l.Perm (y :: ys) ∧
        ys.length + 1 = l.length := by
  intro l
  induction l with
  | nil => intro k hk; simp at hk
  | cons x xs ih =>
    intro k hk
    cases k with
    | zero => exact ⟨x, xs, rfl, List.Perm.refl _, rfl⟩
    | succ k =>
      have hk2 : k < xs.length := by simpa using hk
      obtain ⟨y, ys, h1, h2, h3⟩ := ih k hk2
      refine ⟨y, x :: ys, ?_, ?_, ?_⟩
      · simp [extractAt, h1]
      · exact (h2.cons x).trans (List.Perm.swap y x ys)
      · simp only [List.length_cons]
        omega

/-- The fuel-indexed Fisher-Yates loop returns a permutation of its input
when the fuel equals the input length. -/
theorem shuffleGo_perm {α : Type} :
    ∀ (fuel rng : Nat) (xs : List α), xs.length = fuel →
      (shuffleGo rng fuel xs).Perm xs := by
  intro fuel
  induction fuel with
  | zero =>
    intro rng xs h
    rw [List.length_eq_zero.mp h]
    exact List.Perm.refl _
  | succ fuel ih =>
    intro rng xs h
    have hpos : 0 < xs.length := by omega
    obtain ⟨y, ys, h1, h2, h3⟩ :=
      extractAt_spec xs (rng % xs.length) (Nat.mod_lt _ hpos)
    have hys : ys.length = fuel := by omega
    have hred : shuffleGo rng (fuel + 1) xs = y :: shuffleGo (lcg rng) fuel ys := by
      simp [shuffleGo, h1]
    rw [hred]
    exact ((ih (lcg rng) ys hys).cons y).trans h2.symm

/-- The modelled seeded permutation is a rearrangement of its input. -/
theorem permutation_perm {α : Type} (seed : Nat) (xs : List α) :
    (permutation seed xs).Perm xs :=
  shuffleGo_perm xs.length seed xs rfl

/-- The index list of a class has no duplicates: it filters the duplicate-free
list `range target.length`. -/
theorem flatnonzero_nodup (target : List Nat) (label : Nat) :
    (flatnonzero target label).Nodup :=
  (List.nodup_range _).filter _

/-- C2: per class, the index list is the seed-42 permutation of that label's
indices; the train subset takes its first 4900 entries, the validation subset
the next 100 of the same permutation, and the two are disjoint.  Determinism
of the selection is definitional here: the seeded generator is a pure
function, so re-running it on the same dataset is the same term. -/
theorem train_valid_subsets (target : List Nat) (label : Nat) :
    (label_idx target label).Perm (flatnonzero target label) ∧
    train_subset target label = (label_idx target label).take 4900 ∧
    valid_subset target label = ((label_idx target label).drop 4900).take 100 ∧
    List.Disjoint (train_subset target label) (valid_subset target label) := by
  refine ⟨permutation_perm _ _, rfl, rfl, ?_⟩
  have hnd : (label_idx target label).Nodup :=
    (permutation_perm 42 (flatnonzero target label)).nodup_iff.mpr
      (flatnonzero_nodup target label)
  have hdis : List.Disjoint ((label_idx target label).take 4900)
      ((label_idx target label).drop 4900) :=
    List.disjoint_take_drop hnd le_rfl
  intro a h1 h2
  exact hdis h1 (List.take_subset _ _ h2)

/-- For a positive step, `np.arange(0, n+1, b)` lists the first `n/b + 1`
multiples of `b`. -/
theorem arange0_eq (n b : Nat) (hb : 1 ≤ b) :
    arange0 (n + 1) b = (List.range (n / b + 1)).map (· * b) := by
  unfold arange0
  congr 1
  have h1 : n + 1 + b - 1 = n + b := by omega
  rw [h1, Nat.add_div_right _ (by omega)]

/-- The last boundary of the plain `arange` grid is `(n/b)*b`. -/
theorem range_map_mul_getLast (m b : Nat) :
    ((List.range (m + 1)).map (· * b)).getLast? = some (m * b) := by
  rw [List.range_succ, List.map_append]
  exact List.getLast?_concat _

/-- `getLastD` form of `range_map_mul_getLast`. -/
theorem range_map_mul_getLastD (m b : Nat) :
    ((List.range (m + 1)).map (· * b)).getLastD 0 = m * b := by
  rw [List.getLastD_eq_getLast?, range_map_mul_getLast]
  rfl

/-- The `arange` grid starts at 0. -/
theorem range_map_mul_head (m b : Nat) :
    ((List.range (m + 1)).map (· * b)).head? = some 0 := by
  rw [List.range_succ_eq_map]
  simp

/-- Consecutive entries of the `arange` grid increase by exactly `b`. -/
theorem range_map_mul_chain (m b : Nat) (hb : 1 ≤ b) :
    List.Chain' (fun a a2 => a < a2 ∧ a2 ≤ a + b)
      ((List.range (m + 1)).map (· * b)) := by
  rw [List.chain'_map, List.chain'_range_succ]
  intro i _
  simp only [Nat.succ_eq_add_one]
  have h : (i + 1) * b = i * b + b := by ring
  omega

/-- A number is below the next multiple of `b` after rounding down. -/
theorem lt_divMulSelf_add (n b : Nat) (hb : 1 ≤ b) : n < n / b * b + b := by
  have h1 : n / b * b + n % b = n := by
    rw [Nat.mul_comm]
    exact Nat.div_add_mod n b
  have h2 : n % b < b := Nat.mod_lt _ (by omega)
  generalize hq : n / b * b = q at h1 ⊢
  generalize hr : n % b = r at h1 h2
  omega

/-- The head of a `(· ≤ ·)`-chain is bounded by its last element. -/
theorem chain_le_getLast :
    ∀ (t : List Nat) (c L : Nat), List.Chain' (· ≤ ·) (c :: t) →
      (c :: t).getLast? = some L → c ≤ L := by
  intro t
  induction t with
  | nil =>
    intro c L _ hL
    simp at hL
    omega
  | cons d t ih =>
    intro c L h hL
    have h1 := List.chain'_cons.mp h
    rw [List.getLast?_cons_cons] at hL
    exact le_trans h1.1 (ih d L h1.2 hL)

/-- Gluing the half-open intervals of consecutive boundary pairs of a
monotone boundary list yields the contiguous range from its head to its last
element. -/
theorem intervals_flatten_chain :
    ∀ (t : List Nat) (a L : Nat), List.Chain' (· ≤ ·) (a :: t) →
      (a :: t).getLast? = some L →
      (intervals (a :: t)).flatten = List.range' a (L - a) := by
  intro t
  induction t with
  | nil =>
    intro a L _ hL
    simp at hL
    subst hL
    simp [intervals, Nat.sub_self]
  | cons c t ih =>
    intro a L h hL
    have h1 := List.chain'_cons.mp h
    rw [List.getLast?_cons_cons] at hL
    have hstep : intervals (a :: c :: t)
        = List.range' a (c - a) :: intervals (c :: t) := rfl
    rw [hstep, List.flatten_cons, ih c L h1.2 hL]
    have hac : a ≤ c := h1.1
    have hcL : c ≤ L := chain_le_getLast t c L h1.2 hL
    have h4 : a + (c - a) = c := by omega
    have h5 : L - c + (c - a) = L - a := by omega
    calc List.range' a (c - a) ++ List.range' c (L - c)
        = List.range' a (c - a) ++ List.range' (a + (c - a)) (L - c) := by rw [h4]
      _ = List.range' a (L - c + (c - a)) := List.range'_append_1 _ _ _
      _ = List.range' a (L - a) := by rw [h5]

/-- C10: for a dataset of length `n ≥ 1` and batch size `b ≥ 1`, the
batch-boundary list starts at 0, is strictly increasing with steps of at most
`b`, ends exactly at `n`, and its consecutive pairs partition the index range
`[0, n)`: the concatenation of the half-open batch intervals is exactly
`range n`, so the validation and test loops visit every index once. -/
theorem batchIdx_partition (n b : Nat) (hn : 1 ≤ n) (hb : 1 ≤ b) :
    (batchIdx n b).head? = some 0 ∧
    List.Chain' (fun a a2 => a < a2 ∧ a2 ≤ a + b) (batchIdx n b) ∧
    (batchIdx n b).getLast? = some n ∧
    (intervals (batchIdx n b)).flatten = List.range n := by
  have hmain : (batchIdx n b).head? = some 0 ∧
      List.Chain' (fun a a2 => a < a2 ∧ a2 ≤ a + b) (batchIdx n b) ∧
      (batchIdx n b).getLast? = some n := by
    unfold batchIdx
    rw [arange0_eq n b hb, range_map_mul_getLastD]
    by_cases hc : n / b * b < n
    · rw [if_pos hc]
      refine ⟨?_, ?_, ?_⟩
      · rw [List.head?_append, range_map_mul_head]
        rfl
      · rw [List.chain'_append]
        refine ⟨range_map_mul_chain _ _ hb, List.chain'_singleton _, ?_⟩
        intro x hx y hy
        rw [range_map_mul_getLast] at hx
        simp at hx hy
        subst hx
        subst hy
        exact ⟨hc, Nat.le_of_lt (lt_divMulSelf_add n b hb)⟩
      · exact List.getLast?_concat _
    · rw [if_neg hc]
      have heq : n / b * b = n :=
        le_antisymm (Nat.div_mul_le_self n b) (by omega)
      refine ⟨range_map_mul_head _ _, range_map_mul_chain _ _ hb, ?_⟩
      rw [range_map_mul_getLast, heq]
  refine ⟨hmain.1, hmain.2.1, hmain.2.2, ?_⟩
  obtain ⟨h1, h2, h3⟩ := hmain
  rcases hsp : batchIdx n b with _ | ⟨a, t⟩
  · rw [hsp] at h1
    simp at h1
  · rw [hsp] at h1 h2 h3
    have ha : a = 0 := by simpa using h1
    subst ha
    have hch : List.Chain' (· ≤ ·) (0 :: t) :=
      h2.imp (fun a a2 h => le_of_lt h.1)
    rw [intervals_flatten_chain t 0 n hch h3, Nat.sub_zero]
    exact (List.range_eq_range' n).symm

/-- Witness for C10 at `n = 10`, `b = 4`: the boundary list is
`[0, 4, 8, 10]` and its intervals glue to `range 10`. -/
theorem batchIdx_partition_witness :
    1 ≤ 10 ∧ 1 ≤ 4 ∧
    ((batchIdx 10 4).head? = some 0 ∧
     List.Chain' (fun a a2 => a < a2 ∧ a2 ≤ a + 4) (batchIdx 10 4) ∧
     (batchIdx 10 4).getLast? = some 10 ∧
     (intervals (batchIdx 10 4)).flatten = List.range 10) :=
  ⟨by decide, by decide, batchIdx_partition 10 4 (by decide) (by decide)⟩

/-- With the countdown at its initial value 10, each validation-loop
iteration feeds the model exactly the preprocessed clean batch, so the fold
collects the preprocessed slices in order. -/
theorem hookStep_foldl_inputs (model : Batch → List (List ℚ)) (attack : Batch → Batch)
    (xs : List Image) (ys : List Nat) :
    ∀ (l : List (Nat × Nat)) (r : HookAcc),
      (l.foldl (hookStep model attack xs ys 10) r).modelInputs
        = r.modelInputs
            ++ l.map (fun se => preprocessBatch ((xs.drop se.1).take (se.2 - se.1))) := by
  intro l
  induction l with
  | nil => intro r; simp
  | cons se t ih =>
    intro r
    rw [List.foldl_cons, ih]
    have hstep : (hookStep model attack xs ys 10 r se).modelInputs
        = r.modelInputs ++ [preprocessBatch ((xs.drop se.1).take (se.2 - se.1))] := rfl
    rw [hstep, List.append_assoc]
    rfl

/-- Each test-loop iteration feeds the model the preprocessed clean batch
followed by the preprocessed adversarial batch for every epsilon of the
sweep; the fold collects these contributions in order. -/
theorem testStep_foldl_inputs (model : Batch → List (List ℚ))
    (attackT : ℚ → Batch → Batch) (successCount : ℚ → Batch → Nat)
    (xs : List Image) (ys : List Nat) :
    ∀ (l : List (Nat × Nat)) (r : TestAcc),
      (l.foldl (testStep model attackT successCount xs ys) r).modelInputs
        = r.modelInputs
            ++ l.flatMap (fun se =>
                preprocessBatch ((xs.drop se.1).take (se.2 - se.1)) ::
                  (epsilon_test.map
                    (fun e => attackT e ((xs.drop se.1).take (se.2 - se.1)))).map
                    preprocessBatch) := by
  intro l
  induction l with
  | nil => intro r; simp
  | cons se t ih =>
    intro r
    rw [List.foldl_cons, ih]
    have hstep : (testStep model attackT successCount xs ys r se).modelInputs
        = r.modelInputs
            ++ (preprocessBatch ((xs.drop se.1).take (se.2 - se.1)) ::
                (epsilon_test.map
                  (fun e => attackT e ((xs.drop se.1).take (se.2 - se.1)))).map
                  preprocessBatch) := rfl
    rw [hstep, List.append_assoc]
    rfl

/-- C5: `preprocess` subtracts the per-channel mean and divides by the
per-channel standard deviation pixelwise (the constants being those stored in
`mean` and `std`), and every forward pass of the model in the objective, the
adversarial loss, the validation hook and the test loop receives a
preprocessed batch: the recorded model inputs of each of those functions are
exactly `preprocess` of the batches they handle. -/
theorem preprocess_all_model_inputs (img : Image) (c : Fin 3) (i j : Nat)
    (model : Batch → List (List ℚ)) (cross_entropy : List (List ℚ) → List Nat → ℚ)
    (attack : Batch → Batch) (attackT : ℚ → Batch → Batch)
    (successCount : ℚ → Batch → Nat) (attackGrads : List (Option ℚ))
    (st : TorchState) (x : Batch) (y : List Nat) (primal : Bool)
    (xs : List Image) (ys : List Nat) (b : Nat) :
    ((preprocess img c)[i]?.bind fun row => row[j]?)
      = ((img c)[i]?.bind fun row => row[j]?).map
          (fun v => (v - mean c) / std c) ∧
    (obj_fun model cross_entropy x y).modelInputs = [preprocessBatch x] ∧
    (adversarialLoss model cross_entropy attack attackGrads st x y primal).modelInputs
      = [preprocessBatch (attack x)] ∧
    (validation_hook model attack xs ys b).modelInputs
      = ((batchIdx xs.length b).zip (batchIdx xs.length b).tail).map
          (fun se => preprocessBatch ((xs.drop se.1).take (se.2 - se.1))) ∧
    (epsilonSweep model attackT successCount xs ys b).modelInputs
      = ((batchIdx xs.length b).zip (batchIdx xs.length b).tail).flatMap
          (fun se =>
            preprocessBatch ((xs.drop se.1).take (se.2 - se.1)) ::
              (epsilon_test.map
                (fun e => attackT e ((xs.drop se.1).take (se.2 - se.1)))).map
                preprocessBatch) := by
  refine ⟨?_, rfl, ?_, ?_, ?_⟩
  · show (((img c).map fun row => row.map fun v => (v - mean c) / std c)[i]?.bind
        fun row => row[j]?) = _
    rw [List.getElem?_map]
    cases hrow : (img c)[i]? with
    | none => rfl
    | some row => simp [List.getElem?_map]
  · cases primal <;> rfl
  · have h : (validation_hook model attack xs ys b).modelInputs
        = (hookFold model attack xs ys 10 b).modelInputs := rfl
    rw [h]
    unfold hookFold
    rw [hookStep_foldl_inputs]
    rfl
  · have h : (epsilonSweep model attackT successCount xs ys b).modelInputs
        = (testFold model attackT successCount xs ys b).modelInputs := rfl
    rw [h]
    unfold testFold
    rw [testStep_foldl_inputs]
    rfl

/-- The per-epsilon accumulator lengths are preserved by the test loop: they
stay equal to the number of epsilons in the sweep. -/
theorem testStep_foldl_len (model : Batch → List (List ℚ))
    (attackT : ℚ → Batch → Batch) (successCount : ℚ → Batch → Nat)
    (xs : List Image) (ys : List Nat) :
    ∀ (l : List (Nat × Nat)) (r : TestAcc),
      r.acc_adv.length = epsilon_test.length →
      r.success_adv.length = epsilon_test.length →
      (l.foldl (testStep model attackT successCount xs ys) r).acc_adv.length
          = epsilon_test.length ∧
      (l.foldl (testStep model attackT successCount xs ys) r).success_adv.length
          = epsilon_test.length := by
  intro l
  induction l with
  | nil => intro r h1 h2; exact ⟨h1, h2⟩
  | cons se t ih =>
    intro r h1 h2
    rw [List.foldl_cons]
    apply ih
    · simp only [testStep, List.length_zipWith, List.length_map]
      rw [h1, Nat.min_self]
    · simp only [testStep, List.length_zipWith]
      rw [h2, Nat.min_self]

/-- The epsilon sweep, evaluated: seven rationals from 1/100 to 3/50 in steps
of 1/120. -/
theorem epsilon_test_eq :
    epsilon_test = [1/100, 11/600, 2/75, 7/200, 13/300, 31/600, 3/50] := by
  unfold epsilon_test linspace
  simp [List.range_succ]
  norm_num

/-- C6: the test sweep uses 7 evenly spaced perturbation magnitudes from 0.01
to 0.06 (consecutive gaps of 1/120), and the reported adversarial-accuracy
and attack-success arrays hold exactly one entry per magnitude, alongside the
single scalar clean test accuracy. -/
theorem epsilon_sweep_shape (model : Batch → List (List ℚ))
    (attackT : ℚ → Batch → Batch) (successCount : ℚ → Batch → Nat)
    (xs : List Image) (ys : List Nat) (b : Nat) :
    epsilon_test.length = 7 ∧
    epsilon_test.head? = some (1/100) ∧
    epsilon_test.getLast? = some (6/100) ∧
    (∀ i : Fin 6, epsilon_test.getD (i.1 + 1) 0 - epsilon_test.getD i.1 0 = 1/120) ∧
    (epsilonSweep model attackT successCount xs ys b).acc_adv.length
        = epsilon_test.length ∧
    (epsilonSweep model attackT successCount xs ys b).success_adv.length
        = epsilon_test.length := by
  refine ⟨rfl, ?_, ?_, ?_, ?_, ?_⟩
  · rw [epsilon_test_eq]
    norm_num
  · rw [epsilon_test_eq]
    norm_num
  · rw [epsilon_test_eq]
    intro i
    fin_cases i <;> norm_num [List.getD_cons_zero, List.getD_cons_succ]
  · have h : (epsilonSweep model attackT successCount xs ys b).acc_adv
        = (testFold model attackT successCount xs ys b).acc_adv.map
            (· / ((testFold model attackT successCount xs ys b).n_total : ℚ)) := rfl
    rw [h, List.length_map]
    exact (testStep_foldl_len model attackT successCount xs ys _ _
      (List.length_replicate _ _) (List.length_replicate _ _)).1
  · have h : (epsilonSweep model attackT successCount xs ys b).success_adv
        = (testFold model attackT successCount xs ys b).success_adv.map
            (· / ((testFold model attackT successCount xs ys b).n_total : ℚ)) := rfl
    rw [h, List.length_map]
    exact (testStep_foldl_len model attackT successCount xs ys _ _
      (List.length_replicate _ _) (List.length_replicate _ _)).2

end Robustness
